import Mathlib

/-
Verification of the closure/combinator module
`src/09-functions-n-closures-tasks.js` of core-js-101.

Each JavaScript function of the module is shallowly embedded as an
executable Lean definition.  JavaScript numbers appearing in the claims
are integers, so they are modelled as `Int`; thrown exceptions are
modelled with `Option`/`Except`; the mutable closure state of a factory
(memoization cache, id-generator counter) is passed explicitly.
-/

namespace CoreJs

/-- Model of the JavaScript values the module's wrappers handle:
integer numbers, strings, arrays, and `undefined`. -/
inductive JSValue : Type where
  | num (n : Int)
  | str (s : String)
  | arr (elems : List JSValue)
  | undefined

mutual

/-- How one element is rendered inside `Array.prototype.toString` /
`Array.prototype.join`: numbers print their digits, strings print
as-is, `undefined` prints as the empty string, and a nested array is
rendered by its own comma-joined `toString`. -/
def jsElemString : JSValue → String
  | .num n => toString n
  | .str s => s
  | .arr l => jsElemStringList l
  | .undefined => ""

/-- Comma-joined rendering of an array's elements (`[...].toString()`). -/
def jsElemStringList : List JSValue → String
  | [] => ""
  | [v] => jsElemString v
  | v :: w :: rest => jsElemString v ++ "," ++ jsElemStringList (w :: rest)

end

/-- Rendering of a value inside a template literal: like `jsElemString`
except that `undefined` prints as the word. -/
def jsTemplateString : JSValue → String
  | .num n => toString n
  | .str s => s
  | .arr l => jsElemStringList l
  | .undefined => "undefined"

/-- Integer fragment of JavaScript `ToNumber` on strings: the empty
(trimmed) string is `0`, an optionally negated digit string is its
value, anything else is `NaN` (`none`). -/
def jsParseNum (s : String) : Option Int :=
  let t := s.trim
  if t = "" then some 0
  else if t.startsWith ("-") then ((t.drop 1).toNat?).map (fun n => -(n : Int))
  else (t.toNat?).map (fun n => (n : Int))

/-- The unary `+` coercion on the values of the model (`+v`); `none`
stands for `NaN`. -/
def jsUnaryPlus : JSValue → Option Int
  | .num n => some n
  | .str s => jsParseNum s
  | .arr l => jsParseNum (jsElemStringList l)
  | .undefined => none

/-- The string a template literal prints for `+v`. -/
def jsUnaryPlusString (v : JSValue) : String :=
  match jsUnaryPlus v with
  | some n => toString n
  | none => "NaN"

/-! ### getPolynom (source lines 70–104)

`getPolynom(...arg)` dispatches on `arg.length`.  The writes
`arg[1] = 0; arg[2] = 0` in the unary branch never influence the
returned closure (it reads only `arg[0]`), and the guard
`arg[0] === undefined` in the ternary branch cannot fire when the
coefficients are numbers (the documented `@params {integer}` contract),
so the embedding over integer coefficient lists elides both. -/

/-- Shallow embedding of `getPolynom`: length 1 gives the constant
closure, length 2 the linear one, length 3 the quadratic one, every
other length (including 0 and everything above 3) falls through to
`return null`. -/
def getPolynom : List Int → Option (Int → Int)
  | [a] => some (fun _ => a)
  | [a, b] => some (fun x => a * x + b)
  | [a, b, c] => some (fun x => a * x * x + b * x + c)
  | _ => none

/-! ### retry (source lines 150–169)

`retry(func, attempts)` calls `func()` eagerly (it returns no retrying
wrapper).  Its `return` statements yield either the function object
`func` itself or the number `attempts`; a third consecutive throw
escapes uncaught.  The invocations of `func` are modelled by a sequence
`func : Nat → Option ρ` giving the outcome of the i-th invocation
(`none` = the invocation throws). -/

/-- What a call of the source's `retry` produces. -/
inductive RetryReturn : Type where
  | funcObject
  | attemptsValue (n : Nat)
  | uncaught
deriving DecidableEq, Repr

/-- Shallow embedding of `retry`; the second component counts how many
times `func` was invoked.  The local `count` is `0` at both
`count === attempts` guards, because the preceding `func()` threw
before `count = 1 + count` could run. -/
def retry (func : Nat → Option ρ) (attempts : Nat) : RetryReturn × Nat :=
  match func 0 with
  | some _ => (.funcObject, 1)
  | none =>
    if attempts = 0 then (.attemptsValue attempts, 1)
    else match func 1 with
      | some _ => (.funcObject, 2)
      | none =>
        if attempts = 0 then (.attemptsValue attempts, 2)
        else match func 2 with
          | some _ => (.funcObject, 3)
          | none => (.uncaught, 3)

/-! ### partialUsingArguments (source lines 235–241) -/

/-- JavaScript `args.join('')` over the model's values. -/
def jsJoinEmptyList : List JSValue → String
  | [] => ""
  | v :: rest => jsElemString v ++ jsJoinEmptyList rest

/-- Shallow embedding of `partialUsingArguments(fn, ...args1)` applied
to `args`: the inner closure builds
`` `${args1.join('')}${args.join('')}` `` and returns that string.  The
parameter `fn` is captured but never invoked anywhere in its body. -/
def partialUsingArguments (fn : List JSValue → JSValue)
    (args1 : List JSValue) (args : List JSValue) : JSValue :=
  JSValue.str (jsJoinEmptyList args1 ++ jsJoinEmptyList args)

/-- A binary integer addition function, used to exhibit that
`partialUsingArguments` ignores the wrapped function. -/
def jsSum2 : List JSValue → JSValue
  | [.num a, .num b] => .num (a + b)
  | _ => .undefined

/-! ### memoize (source lines 121–132)

`memoize(func)` owns a private `Map` used as cache.  The cache is
modelled as an association list in insertion order, parameterised by
the key-equality `eq` the `Map` uses (JavaScript `Map`s compare keys
with SameValueZero); `cache.has(x)` / `cache.get(x)` of the source are
the `find?` below.  A throwing `func` is modelled as returning
`none`. -/

/-- `Map.prototype.has` over the association-list model. -/
def mapHas (eq : α → α → Bool) (c : List (α × β)) (x : α) : Bool :=
  c.any (fun p => eq p.1 x)

/-- `Map.prototype.set` over the association-list model: replace the
value of a present key, append a fresh key at the end. -/
def mapSet (eq : α → α → Bool) (c : List (α × β)) (x : α) (v : β) : List (α × β) :=
  if mapHas eq c x then c.map (fun p => if eq p.1 x then (p.1, v) else p)
  else c ++ [(x, v)]

/-- One call of the closure returned by `memoize(func)`: on a cache
hit return the cached value without invoking `func`; on a miss invoke
`func(x)` — if it throws the exception propagates and the cache is
untouched, otherwise store and return the result.  The last component
records whether `func` was invoked during the call. -/
def memoApply (eq : α → α → Bool) (func : α → Option β)
    (cache : List (α × β)) (x : α) : Except Unit β × List (α × β) × Bool :=
  match cache.find? (fun p => eq p.1 x) with
  | some p => (.ok p.2, cache, false)
  | none =>
    match func x with
    | none => (.error (), cache, true)
    | some res => (.ok res, mapSet eq cache x res, true)

/-- A sequence of calls to one memoized closure: returns, per call, the
result together with the argument and the did-it-invoke flag, plus the
final cache. -/
def memoRun (eq : α → α → Bool) (func : α → Option β) :
    List (α × β) → List α → List (Except Unit β × α × Bool) × List (α × β)
  | c, [] => ([], c)
  | c, x :: xs =>
    let r := memoApply eq func c x
    let rest := memoRun eq func r.2.1 xs
    ((r.1, x, r.2.2) :: rest.1, rest.2)

/-- Plain decidable key equality, the instantiation of the `Map`'s key
comparison used when the keys contain neither `NaN` nor `-0`. -/
def eqKey [DecidableEq α] (a b : α) : Bool := decide (a = b)

/-- JavaScript numbers as `Map` keys, keeping the two values on which
SameValueZero and strict equality disagree with exact value identity:
`NaN` and negative zero (`int 0` is `+0`). -/
inductive JSNum : Type where
  | nan
  | negZero
  | int (n : Int)
deriving DecidableEq, Repr

/-- SameValueZero, the key equality of JavaScript `Map`s: `NaN` equals
`NaN`, and `-0` equals `+0`. -/
def sameValueZero : JSNum → JSNum → Bool
  | .nan, .nan => true
  | .negZero, .negZero => true
  | .negZero, .int n => n = 0
  | .int n, .negZero => n = 0
  | .int a, .int b => a = b
  | _, _ => false

/-- JavaScript strict equality `===` on the number model: `NaN` is not
equal to anything (itself included), while `-0 === +0` holds. -/
def strictEq : JSNum → JSNum → Bool
  | .nan, _ => false
  | _, .nan => false
  | .negZero, .negZero => true
  | .negZero, .int n => n = 0
  | .int n, .negZero => n = 0
  | .int a, .int b => a = b

/-! ### logger (source lines 195–219)

The wrapper dispatches on `args1.length`.  With exactly one argument it
calls `logFunc` with the "starts" line, then — already — with the
"ends" line, and only then invokes `func`.  With any other arity it
takes `arr.slice(0, arr.length - 1)` and calls `.map` on its first
element, which throws a `TypeError` before any log line whenever that
element is not an array (in particular for zero arguments, where it is
`undefined`).  The wrapper's observable behaviour is captured as the
ordered list of emitted events plus the returned value or error. -/

/-- The thrown errors the logger model distinguishes. -/
inductive JSError : Type where
  | typeError
deriving DecidableEq, Repr

/-- One observable event of a `logger` wrapper call: a `logFunc(s)`
call, or the invocation of the wrapped `func`. -/
inductive LogEvent : Type where
  | line (s : String)
  | invoke

/-- The quoting pass `x[0].map(...)` of the source applies to the first
argument's elements: string elements gain surrounding double quotes,
everything else is kept. -/
def jsQuoteElem : JSValue → JSValue
  | .str s => .str ("\"" ++ s ++ "\"")
  | v => v

/-- Shallow embedding of the closure returned by
`logger(func, logFunc)`, applied to the argument list `args1`; `func`
is split into its `name` and its value behaviour.  Returns the emitted
events in order and the outcome. -/
def loggerWrapper (name : String) (func : List JSValue → JSValue)
    (args1 : List JSValue) : List LogEvent × Except JSError JSValue :=
  if args1.length = 1 then
    let argsStr := jsElemStringList args1
    ([.line (name ++ "(" ++ argsStr ++ ") starts"),
      .line (name ++ "(" ++ argsStr ++ ") ends"),
      .invoke],
     .ok (func args1))
  else
    let x := args1.take (args1.length - 1)
    match x.headD .undefined with
    | .arr elems =>
      let xMap := elems.map jsQuoteElem
      let last := args1.getLastD .undefined
      let xMapStr := jsElemStringList xMap
      ([.line (name ++ "([" ++ xMapStr ++ "]," ++ jsUnaryPlusString last ++ ") starts"),
        .invoke,
        .line (name ++ "([" ++ xMapStr ++ "]," ++ jsTemplateString last ++ ") ends")],
       .ok (func args1))
    | _ => ([], .error .typeError)

/-! ### getIdGeneratorFunction (source lines 261–270)

Each generator instance owns a counter `count` (initially `0`) and a
flag (initially `undefined`, hence falsy); a call increments `count`
only when the flag is already set, sets the flag, and returns
`startFrom + count`. -/

/-- The private closure state of one id generator instance. -/
structure GenState : Type where
  count : Int
  flag : Bool
deriving DecidableEq, Repr

/-- The state a fresh `getIdGeneratorFunction(startFrom)` closure owns. -/
def idGenInit : GenState := ⟨0, false⟩

/-- One call of the generator's `wrapper`: returns the produced id and
the updated state. -/
def idGenStep (startFrom : Int) (s : GenState) : Int × GenState :=
  let count := if s.flag then 1 + s.count else s.count
  (startFrom + count, ⟨count, true⟩)

/-- The ids produced by `n` successive calls of one generator starting
in state `s`. -/
def idGenRunFrom (startFrom : Int) (s : GenState) : Nat → List Int
  | 0 => []
  | n + 1 =>
    let r := idGenStep startFrom s
    r.1 :: idGenRunFrom startFrom r.2 n

/-- The ids produced by `n` calls of a fresh generator. -/
def idGenRun (startFrom : Int) (n : Nat) : List Int :=
  idGenRunFrom startFrom idGenInit n

/-- Two generator instances driven by an arbitrary interleaving
schedule (`true` = call the first instance, `false` = the second); each
instance owns its state, exactly as each closure owns `count`/`flag`.
Returns the ids each instance produced, in order. -/
def idGenInterleave (s1 s2 : Int) : List Bool → GenState → GenState → List Int × List Int
  | [], _, _ => ([], [])
  | b :: rest, g1, g2 =>
    if b then
      let r := idGenStep s1 g1
      let p := idGenInterleave s1 s2 rest r.2 g2
      (r.1 :: p.1, p.2)
    else
      let r := idGenStep s2 g2
      let p := idGenInterleave s1 s2 rest g1 r.2
      (p.1, r.1 :: p.2)

/-! ## Claim theorems for getPolynom, retry, partialUsingArguments -/

/-- Claim C6: `getPolynom` returns `null` on zero coefficients, the
constant function on one, the linear function `a*x + b` on two, and the
quadratic `a*x² + b*x + c` on three. -/
theorem getPolynom_low_degree (a b c x : Int) :
    getPolynom [] = none
    ∧ (getPolynom [a]).map (fun q => q x) = some a
    ∧ (getPolynom [a, b]).map (fun q => q x) = some (a * x + b)
    ∧ (getPolynom [a, b, c]).map (fun q => q x) = some (a * x * x + b * x + c) :=
  ⟨rfl, rfl, rfl, rfl⟩

/-- Claim C6 witness at the spec's concrete examples:
`polynomOf(2,3,5)(1) = 10` and `polynomOf(1,-3)(5) = 2`. -/
theorem getPolynom_low_degree_witness :
    getPolynom [] = none
    ∧ (getPolynom [(2 : Int)]).map (fun q => q 7) = some 2
    ∧ (getPolynom [(1 : Int), -3]).map (fun q => q 5) = some 2
    ∧ (getPolynom [(2 : Int), 3, 5]).map (fun q => q 1) = some 10 := by
  have h := getPolynom_low_degree 2 3 5 1
  have h2 := getPolynom_low_degree 1 (-3) 0 5
  exact ⟨h.1, rfl, by rw [h2.2.2.1]; rfl, by rw [h.2.2.2]; rfl⟩

/-- Claim C4 counterexample: with the four coefficients `2,3,5,7` the
source returns `null`, not the quadratic produced by the first three
coefficients (which would map `1` to `10`). -/
theorem getPolynom_four_coeffs_cex :
    getPolynom [2, 3, 5, 7] = none
    ∧ (getPolynom [2, 3, 5]).map (fun q => q 1) = some 10
    ∧ (getPolynom [2, 3, 5, 7]).map (fun q => q 1)
        ≠ (getPolynom [2, 3, 5]).map (fun q => q 1) :=
  ⟨rfl, rfl, by decide⟩

/-- Claim C4 amended: called with more than 3 coefficients,
`getPolynom` returns `null` (it rejects by producing no function rather
than truncating to the first three coefficients). -/
theorem getPolynom_gt3_none (l : List Int) (h : 3 < l.length) :
    getPolynom l = none := by
  rcases l with _ | ⟨a, _ | ⟨b, _ | ⟨c, _ | ⟨d, t⟩⟩⟩⟩
  · simp at h
  · simp at h
  · simp at h
  · simp at h
  · rfl

/-- Claim C4 amended, witness at the concrete input `[1,2,3,4]`. -/
theorem getPolynom_gt3_none_witness :
    getPolynom [1, 2, 3, 4] = none :=
  getPolynom_gt3_none [1, 2, 3, 4] (by decide)

/-- Claim C1: contrary to the claim, `retry` does not return the
successful invocation's result and does not let the final failure of
`attempts + 1` invocations propagate.  At `attempts = 0` with an always
throwing `func` it swallows the failure and returns the number
`attempts` after one invocation; with an immediately succeeding `func`
it returns the function object `func` itself rather than the result
`42`; and at `attempts = 5` with an always-throwing `func` it invokes
`func` only 3 times (not 6) before the third failure escapes. -/
theorem retry_code_bug :
    retry (fun _ => (none : Option Nat)) 0 = (.attemptsValue 0, 1)
    ∧ retry (fun _ => (some 42 : Option Nat)) 0 = (.funcObject, 1)
    ∧ retry (fun _ => (none : Option Nat)) 5 = (.uncaught, 3) :=
  ⟨rfl, rfl, rfl⟩

/-- Claim C2: contrary to the claim, the completer returned by
`partialUsingArguments` never invokes `fn`.  On `fn = jsSum2` with
bound argument `1` and call-time argument `2` it returns the joined
string `12` while `fn` applied to `(1, 2)` returns the number `3`; and
its value is the same for every pair of wrapped functions, so `fn` is
never consulted at all. -/
theorem partialUsingArguments_code_bug :
    partialUsingArguments jsSum2 [.num 1] [.num 2] = JSValue.str ("12")
    ∧ jsSum2 [.num 1, .num 2] = JSValue.num 3
    ∧ ∀ (fn gn : List JSValue → JSValue) (b r : List JSValue),
        partialUsingArguments fn b r = partialUsingArguments gn b r :=
  ⟨rfl, rfl, fun _ _ _ _ => rfl⟩

/-! ## Claim theorems for logger -/

/-- Claim C3: contrary to the claim, in the one-argument case the
wrapper emits the "ends" log line before invoking `func`: at the
argument `3` the event order is starts-line, ends-line, invocation —
not starts-line, invocation, ends-line. -/
theorem logger_ends_before_invoke :
    loggerWrapper ("cos") (fun _ => JSValue.num (-1)) [JSValue.num 3]
      = ([.line ("cos(3) starts"), .line ("cos(3) ends"), .invoke],
         .ok (JSValue.num (-1))) := rfl

/-- Claim C9: invoked with zero arguments, or with two or more
arguments whose first argument is not an array, the logger wrapper
throws a `TypeError` having emitted no event at all — no log line, and
no invocation of `func`. -/
theorem logger_nonunary_typeError (name : String) (func : List JSValue → JSValue)
    (args1 : List JSValue)
    (h : args1 = [] ∨ 2 ≤ args1.length ∧ ∀ l, args1.headD JSValue.undefined ≠ JSValue.arr l) :
    loggerWrapper name func args1 = ([], Except.error JSError.typeError) := by
  rcases h with h | ⟨hlen, hne⟩
  · subst h; rfl
  · rcases args1 with _ | ⟨a, _ | ⟨b, t⟩⟩
    · simp at hlen
    · simp at hlen
    · cases a with
      | arr l => have h2 := hne l; simp at h2
      | num n => simp [loggerWrapper]
      | str s => simp [loggerWrapper]
      | undefined => simp [loggerWrapper]

/-- Claim C9 witness: the zero-argument call and a two-argument call
with a non-array first argument both throw without any event. -/
theorem logger_nonunary_typeError_witness :
    loggerWrapper ("cos") (fun _ => JSValue.num 0) []
      = ([], Except.error JSError.typeError)
    ∧ loggerWrapper ("cos") (fun _ => JSValue.num 0) [JSValue.num 1, JSValue.num 2]
      = ([], Except.error JSError.typeError) :=
  ⟨logger_nonunary_typeError ("cos") (fun _ => JSValue.num 0) [] (Or.inl rfl),
   logger_nonunary_typeError ("cos") (fun _ => JSValue.num 0)
     [JSValue.num 1, JSValue.num 2]
     (Or.inr ⟨by decide, fun l => by simp⟩)⟩

/-! ## Claim theorems for memoize -/

/-- Claim C8: when `func` throws on a not-yet-cached argument `x`, the
wrapper propagates the exception, leaves the cache untouched, and a
later call with the same `x` invokes `func` again. -/
theorem memoize_throw_no_cache (eq : α → α → Bool) (func : α → Option β)
    (c : List (α × β)) (x : α)
    (hmiss : c.find? (fun p => eq p.1 x) = none) (hthrow : func x = none) :
    memoApply eq func c x = (.error (), c, true)
    ∧ (memoApply eq func (memoApply eq func c x).2.1 x).2.2 = true := by
  have h1 : memoApply eq func c x = (.error (), c, true) := by
    simp [memoApply, hmiss, hthrow]
  exact ⟨h1, by simp [h1, memoApply, hmiss, hthrow]⟩

/-- Claim C8 witness: the always-throwing function on the empty cache
at the key `0`. -/
theorem memoize_throw_no_cache_witness :
    memoApply (eqKey : Int → Int → Bool) (fun _ => (none : Option Int)) [] 0
      = (.error (), [], true)
    ∧ (memoApply (eqKey : Int → Int → Bool) (fun _ => (none : Option Int))
        ((memoApply (eqKey : Int → Int → Bool) (fun _ => (none : Option Int)) [] 0).2.1)
        0).2.2 = true :=
  memoize_throw_no_cache eqKey (fun _ => none) [] 0 rfl rfl

/-- Unfolding lemma: one call of the memoized closure followed by the
rest of the run. -/
theorem memoRun_cons (eq : α → α → Bool) (func : α → Option β)
    (c : List (α × β)) (x : α) (xs : List α) :
    memoRun eq func c (x :: xs)
      = (((memoApply eq func c x).1, x, (memoApply eq func c x).2.2) ::
          (memoRun eq func (memoApply eq func c x).2.1 xs).1,
         (memoRun eq func (memoApply eq func c x).2.1 xs).2) := rfl

/-- A failed lookup means the key is absent. -/
theorem mapHas_false_of_find?_none (eq : α → α → Bool) (c : List (α × β)) (x : α)
    (h : c.find? (fun p => eq p.1 x) = none) : mapHas eq c x = false := by
  rw [List.find?_eq_none] at h
  simp only [mapHas, List.any_eq_false]
  exact fun p hp => h p hp

/-- A successful lookup means the key is present. -/
theorem mapHas_true_of_find?_some (eq : α → α → Bool) (c : List (α × β)) (x : α)
    (pr : α × β) (h : c.find? (fun p => eq p.1 x) = some pr) :
    mapHas eq c x = true := by
  have h3 := List.find?_some h
  simp only [mapHas, List.any_eq_true]
  exact ⟨pr, List.mem_of_find?_eq_some h, by simpa using h3⟩

/-- `Map.set` on an absent key appends the new entry. -/
theorem mapSet_of_miss (eq : α → α → Bool) (c : List (α × β)) (x : α) (v : β)
    (h : c.find? (fun p => eq p.1 x) = none) : mapSet eq c x v = c ++ [(x, v)] := by
  simp [mapSet, mapHas_false_of_find?_none eq c x h]

/-- Key presence after appending one entry. -/
theorem mapHas_append_single (eq : α → α → Bool) (c : List (α × β)) (y : α) (v : β)
    (x : α) : mapHas eq (c ++ [(y, v)]) x = (mapHas eq c x || eq y x) := by
  simp [mapHas, List.any_append]

/-- Run invariant of the memoized closure of a pure total function:
when every cache entry stores the function's value at its key, every
call of the run returns the function's value at its argument, and the
invariant is preserved into the final cache. -/
theorem memoRun_results [DecidableEq α] (func : α → β) :
    ∀ (xs : List α) (c : List (α × β)), (∀ p ∈ c, p.2 = func p.1) →
      (∀ e ∈ (memoRun eqKey (fun a => some (func a)) c xs).1,
          e.1 = Except.ok (func e.2.1))
      ∧ ∀ p ∈ (memoRun eqKey (fun a => some (func a)) c xs).2, p.2 = func p.1 := by
  intro xs
  induction xs with
  | nil =>
    intro c hc
    exact ⟨fun e he => absurd he (by simp [memoRun]),
           fun p hp => hc p (by simpa [memoRun] using hp)⟩
  | cons x xs ih =>
    intro c hc
    rcases hfind : c.find? (fun p => eqKey p.1 x) with _ | pr
    · have happ : memoApply eqKey (fun a => some (func a)) c x
          = (.ok (func x), c ++ [(x, func x)], true) := by
        simp [memoApply, hfind, mapSet_of_miss eqKey c x (func x) hfind]
      have hc' : ∀ p ∈ c ++ [(x, func x)], p.2 = func p.1 := by
        intro p hp
        rcases List.mem_append.1 hp with hp | hp
        · exact hc p hp
        · have hp' : p = (x, func x) := List.mem_singleton.1 hp
          rw [hp']
      have hrest := ih (c ++ [(x, func x)]) hc'
      simp only [memoRun_cons, happ]
      constructor
      · intro e he
        rcases List.mem_cons.1 he with rfl | he
        · rfl
        · exact hrest.1 e he
      · exact hrest.2
    · have h1 : pr.1 = x := by simpa [eqKey] using List.find?_some hfind
      have h2 : pr ∈ c := List.mem_of_find?_eq_some hfind
      have happ : memoApply eqKey (fun a => some (func a)) c x
          = (.ok pr.2, c, false) := by simp [memoApply, hfind]
      have hrest := ih c hc
      simp only [memoRun_cons, happ]
      constructor
      · intro e he
        rcases List.mem_cons.1 he with rfl | he
        · show Except.ok pr.2 = Except.ok (func x)
          rw [hc pr h2, h1]
        · exact hrest.1 e he
      · exact hrest.2

/-- Over a whole run, the memoized closure of a pure total function
invokes it for the key `x` exactly once when `x` occurs in the call
sequence and is not yet cached, and never otherwise. -/
theorem memoRun_count [DecidableEq α] (func : α → β) (x : α) :
    ∀ (xs : List α) (c : List (α × β)),
      ((memoRun eqKey (fun a => some (func a)) c xs).1.filter
        (fun e => eqKey e.2.1 x && e.2.2)).length
      = if mapHas eqKey c x = true then 0 else if x ∈ xs then 1 else 0 := by
  intro xs
  induction xs with
  | nil =>
    intro c
    cases h : mapHas eqKey c x <;> simp [memoRun, h]
  | cons x' xs ih =>
    intro c
    rcases hfind : c.find? (fun p => eqKey p.1 x') with _ | pr
    · have happ : memoApply eqKey (fun a => some (func a)) c x'
          = (.ok (func x'), c ++ [(x', func x')], true) := by
        simp [memoApply, hfind, mapSet_of_miss eqKey c x' (func x') hfind]
      have hch : mapHas eqKey c x' = false := mapHas_false_of_find?_none _ _ _ hfind
      simp only [memoRun_cons, happ]
      by_cases hxx : x' = x
      · subst hxx
        have hc'h : mapHas eqKey (c ++ [(x', func x')]) x' = true := by
          simp [mapHas_append_single, eqKey]
        have hkey : eqKey x' x' = true := by simp [eqKey]
        simp [List.filter_cons, hkey, ih, hc'h, hch]
      · have hkey : eqKey x' x = false := by simp [eqKey, hxx]
        have hc'h : mapHas eqKey (c ++ [(x', func x')]) x = mapHas eqKey c x := by
          simp [mapHas_append_single, hkey]
        have hx : ¬ x = x' := fun h => hxx h.symm
        simp [List.filter_cons, hkey, ih, hc'h, List.mem_cons, hx]
    · have happ : memoApply eqKey (fun a => some (func a)) c x'
          = (.ok pr.2, c, false) := by simp [memoApply, hfind]
      have hhas : mapHas eqKey c x' = true := mapHas_true_of_find?_some _ _ _ _ hfind
      simp only [memoRun_cons, happ]
      by_cases hxx : x' = x
      · subst hxx
        simp [List.filter_cons, ih, hhas]
      · have hx : ¬ x = x' := fun h => hxx h.symm
        simp [List.filter_cons, ih, List.mem_cons, hx]

/-- After a run, a key is cached exactly when it was cached before or
occurred in the call sequence. -/
theorem memoRun_has [DecidableEq α] (func : α → β) (x : α) :
    ∀ (xs : List α) (c : List (α × β)),
      mapHas eqKey (memoRun eqKey (fun a => some (func a)) c xs).2 x
        = (mapHas eqKey c x || decide (x ∈ xs)) := by
  intro xs
  induction xs with
  | nil => intro c; simp [memoRun]
  | cons x' xs ih =>
    intro c
    rcases hfind : c.find? (fun p => eqKey p.1 x') with _ | pr
    · have happ : memoApply eqKey (fun a => some (func a)) c x'
          = (.ok (func x'), c ++ [(x', func x')], true) := by
        simp [memoApply, hfind, mapSet_of_miss eqKey c x' (func x') hfind]
      simp only [memoRun_cons, happ, ih, mapHas_append_single]
      by_cases hxx : x' = x
      · subst hxx
        have hkey : eqKey x' x' = true := by simp [eqKey]
        simp [hkey, List.mem_cons]
      · have hkey : eqKey x' x = false := by simp [eqKey, hxx]
        have hx : ¬ x = x' := fun h => hxx h.symm
        simp [hkey, List.mem_cons, hx]
    · have happ : memoApply eqKey (fun a => some (func a)) c x'
          = (.ok pr.2, c, false) := by simp [memoApply, hfind]
      have hhas : mapHas eqKey c x' = true := mapHas_true_of_find?_some _ _ _ _ hfind
      simp only [memoRun_cons, happ, ih]
      by_cases hxx : x' = x
      · subst hxx
        simp [hhas]
      · have hx : ¬ x = x' := fun h => hxx h.symm
        simp [List.mem_cons, hx]

/-- Claim C5: starting from the empty cache, over any call sequence the
memoized closure of a pure function invokes it exactly once for a key
occurring in the sequence and zero times for any other key, every call
returns the function's value at its argument (so repeated calls with an
equal key all return the stored value), and afterwards exactly the keys
that occurred are cached. -/
theorem memoize_once_per_key [DecidableEq α] (func : α → β) (xs : List α) (x : α) :
    (((memoRun eqKey (fun a => some (func a)) [] xs).1.filter
        (fun e => eqKey e.2.1 x && e.2.2)).length = if x ∈ xs then 1 else 0)
    ∧ (∀ e ∈ (memoRun eqKey (fun a => some (func a)) [] xs).1,
        e.1 = Except.ok (func e.2.1))
    ∧ mapHas eqKey (memoRun eqKey (fun a => some (func a)) [] xs).2 x
        = decide (x ∈ xs) := by
  refine ⟨?_, (memoRun_results func xs [] (by simp)).1, ?_⟩
  · simpa [mapHas] using memoRun_count func x xs []
  · simpa [mapHas] using memoRun_has func x xs []

/-- Claim C5 witness: the spec's counting example `m(5); m(5); m(5);
m(6)` — one invocation for the key `5`, one entry recorded for it. -/
theorem memoize_once_per_key_witness :
    (((memoRun (eqKey : Int → Int → Bool) (fun a => some (a * a)) [] [5, 5, 5, 6]).1.filter
        (fun e => eqKey e.2.1 5 && e.2.2)).length = 1)
    ∧ mapHas (eqKey : Int → Int → Bool)
        (memoRun (eqKey : Int → Int → Bool) (fun a => some (a * a)) [] [5, 5, 5, 6]).2 5
      = true := by
  have h := memoize_once_per_key (fun n : Int => n * n) [5, 5, 5, 6] 5
  exact ⟨by simpa using h.1, by simpa using h.2.2⟩

/-- Claim C10: the cache keys arguments by SameValueZero, not strict
equality: a second call with `NaN` is a cache hit (no second
invocation, same stored value) although `NaN === NaN` is false, and a
call with `+0` after a call with `-0` hits the single entry the two
share. -/
theorem memoize_sameValueZero_keys (func : JSNum → β) :
    strictEq JSNum.nan JSNum.nan = false
    ∧ (memoRun sameValueZero (fun a => some (func a)) [] [JSNum.nan, JSNum.nan]).1.map
        (fun e => (e.1, e.2.2))
      = [(Except.ok (func JSNum.nan), true), (Except.ok (func JSNum.nan), false)]
    ∧ (memoRun sameValueZero (fun a => some (func a)) [] [JSNum.negZero, JSNum.int 0]).1.map
        (fun e => (e.1, e.2.2))
      = [(Except.ok (func JSNum.negZero), true), (Except.ok (func JSNum.negZero), false)]
    ∧ (memoRun sameValueZero (fun a => some (func a)) [] [JSNum.negZero, JSNum.int 0]).2
      = [(JSNum.negZero, func JSNum.negZero)] :=
  ⟨rfl, rfl, rfl, rfl⟩

/-- Claim C10 witness at the constant function returning `1`: the two
`NaN` calls share the cache entry even though `NaN === NaN` fails. -/
theorem memoize_sameValueZero_keys_witness :
    strictEq JSNum.nan JSNum.nan = false
    ∧ (memoRun sameValueZero (fun _ => some (JSNum.int 1)) [] [JSNum.nan, JSNum.nan]).1.map
        (fun e => (e.1, e.2.2))
      = [(Except.ok (JSNum.int 1), true), (Except.ok (JSNum.int 1), false)] := by
  have h := memoize_sameValueZero_keys (fun _ => JSNum.int 1)
  exact ⟨h.1, h.2.1⟩

/-! ## Claim theorems for getIdGeneratorFunction -/

/-- From a state whose flag is set, `n` calls return the `n` successive
integers after the last returned value. -/
theorem idGenRunFrom_true (startFrom : Int) :
    ∀ (n : Nat) (c : Int),
      idGenRunFrom startFrom ⟨c, true⟩ n
        = (List.range n).map (fun i : Nat => startFrom + c + 1 + (i : Int)) := by
  intro n
  induction n with
  | zero => intro c; rfl
  | succ n ih =>
    intro c
    have hstep : idGenRunFrom startFrom ⟨c, true⟩ (n + 1)
        = (startFrom + (1 + c)) :: idGenRunFrom startFrom ⟨1 + c, true⟩ n := rfl
    rw [hstep, ih (1 + c), List.range_succ_eq_map, List.map_cons, List.map_map]
    congr 1
    · show startFrom + (1 + c) = startFrom + c + 1 + ((0 : Nat) : Int)
      push_cast
      ring
    · have hfun : (fun i : Nat => startFrom + (1 + c) + 1 + (i : Int))
          = ((fun i : Nat => startFrom + c + 1 + (i : Int)) ∘ Nat.succ) := by
        funext i
        simp only [Function.comp]
        push_cast
        ring
      rw [hfun]

/-- `n` calls of a fresh generator return `startFrom, startFrom + 1, …`
— the i-th call (0-based) returns `startFrom + i`. -/
theorem idGenRun_eq (startFrom : Int) (n : Nat) :
    idGenRun startFrom n = (List.range n).map (fun i : Nat => startFrom + (i : Int)) := by
  cases n with
  | zero => rfl
  | succ n =>
    have hstep : idGenRun startFrom (n + 1)
        = (startFrom + 0) :: idGenRunFrom startFrom ⟨0, true⟩ n := rfl
    rw [hstep, idGenRunFrom_true startFrom n 0, List.range_succ_eq_map,
      List.map_cons, List.map_map]
    have hfun : (fun i : Nat => startFrom + 0 + 1 + (i : Int))
        = ((fun i : Nat => startFrom + (i : Int)) ∘ Nat.succ) := by
      funext i
      simp only [Function.comp]
      push_cast
      ring
    rw [hfun]
    simp

/-- Under any interleaving, each of two generator instances produces
exactly the sequence its own number of calls would produce in
isolation: the instances never affect one another. -/
theorem idGenInterleave_eq (s1 s2 : Int) :
    ∀ (sched : List Bool) (g1 g2 : GenState),
      (idGenInterleave s1 s2 sched g1 g2).1
        = idGenRunFrom s1 g1 (sched.count true)
      ∧ (idGenInterleave s1 s2 sched g1 g2).2
        = idGenRunFrom s2 g2 (sched.count false) := by
  intro sched
  induction sched with
  | nil => intro g1 g2; exact ⟨rfl, rfl⟩
  | cons b rest ih =>
    intro g1 g2
    cases b with
    | true =>
      have hc1 : (true :: rest).count true = rest.count true + 1 := by
        simp [List.count_cons]
      have hc2 : (true :: rest).count false = rest.count false := by
        simp [List.count_cons]
      have h := ih (idGenStep s1 g1).2 g2
      constructor
      · show (idGenStep s1 g1).1
            :: (idGenInterleave s1 s2 rest (idGenStep s1 g1).2 g2).1
          = idGenRunFrom s1 g1 ((true :: rest).count true)
        rw [hc1, h.1]
        rfl
      · show (idGenInterleave s1 s2 rest (idGenStep s1 g1).2 g2).2
          = idGenRunFrom s2 g2 ((true :: rest).count false)
        rw [hc2, h.2]
    | false =>
      have hc1 : (false :: rest).count true = rest.count true := by
        simp [List.count_cons]
      have hc2 : (false :: rest).count false = rest.count false + 1 := by
        simp [List.count_cons]
      have h := ih g1 (idGenStep s2 g2).2
      constructor
      · show (idGenInterleave s1 s2 rest g1 (idGenStep s2 g2).2).1
          = idGenRunFrom s1 g1 ((false :: rest).count true)
        rw [hc1, h.1]
      · show (idGenStep s2 g2).1
            :: (idGenInterleave s1 s2 rest g1 (idGenStep s2 g2).2).2
          = idGenRunFrom s2 g2 ((false :: rest).count false)
        rw [hc2, h.2]
        rfl

/-- Claim C7: the i-th call (1-based, i = 1..n) of a generator returns
`startFrom + i - 1` — the first call returns `startFrom`, each later
call the previous value plus one — and two instances, interleaved under
any schedule, each produce exactly their isolated sequences, so calls
to one never affect the other (even with equal starting values, since
`s2` is arbitrary). -/
theorem idGenerator_spec (startFrom s2 : Int) (n : Nat) (sched : List Bool) :
    idGenRun startFrom n = (List.range n).map (fun i : Nat => startFrom + (i : Int))
    ∧ (idGenInterleave startFrom s2 sched idGenInit idGenInit).1
        = idGenRun startFrom (sched.count true)
    ∧ (idGenInterleave startFrom s2 sched idGenInit idGenInit).2
        = idGenRun s2 (sched.count false) :=
  ⟨idGenRun_eq startFrom n,
   (idGenInterleave_eq startFrom s2 sched idGenInit idGenInit).1,
   (idGenInterleave_eq startFrom s2 sched idGenInit idGenInit).2⟩

/-- Claim C7 witness: the spec's example — three calls of a generator
started at 4 yield `[4, 5, 6]`, and interleaved with it a generator
started at 10 yields `[10, 11]` unaffected. -/
theorem idGenerator_spec_witness :
    idGenRun 4 3 = [4, 5, 6]
    ∧ (idGenInterleave 4 10 [true, true, true, false, false]
        idGenInit idGenInit).1 = [4, 5, 6]
    ∧ (idGenInterleave 4 10 [true, true, true, false, false]
        idGenInit idGenInit).2 = [10, 11] := by
  have h := idGenerator_spec 4 10 3 [true, true, true, false, false]
  refine ⟨?_, ?_, ?_⟩
  · rw [h.1]; decide
  · rw [h.2.1]; decide
  · rw [h.2.2]; decide

end CoreJs
